import Mathlib

/-!
Shallow embedding of the live audio conversation session manager
(`LiveConversation` component) of the chatAI repository, together with
proofs of the specified properties.

The component keeps its cross-callback state in React refs and state
hooks; we model the whole of it as one `SessionState` record and each
event callback as a pure state-transition function translated line by
line from the source.
-/

namespace ChatAI

/-- Speaker tag of a committed transcript item (`'user' | 'model'` in the source). -/
inductive Speaker where
  | user
  | model
deriving DecidableEq

/-- One committed transcript segment (`TranscriptionItem` of the source):
speaker, text and the `Date.now()` timestamp at commit time. -/
structure TranscriptionItem where
  speaker : Speaker
  text : String
  timestamp : Nat
deriving DecidableEq

/-- One scheduled playback buffer (an `AudioBufferSourceNode` that
`source.start(nextStartTimeRef.current)` has scheduled): its start offset on the
output clock and its decoded duration.  Clock values and durations are embedded
as rationals. -/
structure ScheduledBuffer where
  start : ℚ
  duration : ℚ
deriving DecidableEq

/-- The microphone media stream held in `streamRef`: an identity plus whether
`track.stop()` has been called on its tracks. -/
structure MediaStream where
  id : Nat
  tracksStopped : Bool
deriving DecidableEq

/-- The whole mutable state of the `LiveConversation` component: every React
ref and state hook that the session callbacks read or write. -/
structure SessionState where
  isActive : Bool
  transcription : List TranscriptionItem
  activeUserText : String
  activeModelText : String
  isModelSpeaking : Bool
  audioContextIn : Option Nat
  audioContextOut : Option Nat
  session : Option Nat
  sources : List ScheduledBuffer
  nextStartTime : ℚ
  stream : Option MediaStream
  currentInputText : String
  currentOutputText : String
  lastCommittedInput : String
  lastCommittedOutput : String
  sessionToken : Nat
deriving DecidableEq

/-- The initial value of every ref and state hook of the component. -/
def initialState : SessionState :=
  { isActive := false
    transcription := []
    activeUserText := ""
    activeModelText := ""
    isModelSpeaking := false
    audioContextIn := none
    audioContextOut := none
    session := none
    sources := []
    nextStartTime := 0
    stream := none
    currentInputText := ""
    currentOutputText := ""
    lastCommittedInput := ""
    lastCommittedOutput := ""
    sessionToken := 0 }

/-- JavaScript `s.startsWith(p)`: the character sequence of `p` is a leading
subsequence of the character sequence of `s`. -/
def jsStartsWith (s p : String) : Bool :=
  p.data.isPrefixOf s.data

/-- The `mergeTranscript` callback of the source, line by line:
`if (!incoming) return current; if (incoming.startsWith(current)) return incoming;
if (current.startsWith(incoming)) return current; return current + incoming;`. -/
def mergeTranscript (current incoming : String) : String :=
  if incoming = "" then current
  else if jsStartsWith incoming current then incoming
  else if jsStartsWith current incoming then current
  else current ++ incoming

theorem jsStartsWith_iff (s p : String) :
    jsStartsWith s p = true ↔ p.data <+: s.data := by
  simp [jsStartsWith]

/-- C2: the four cases of `mergeTranscript`. -/
theorem mergeTranscript_cases (current incoming : String) :
    (incoming = "" → mergeTranscript current incoming = current) ∧
    (current.data <+: incoming.data → mergeTranscript current incoming = incoming) ∧
    (incoming.data <+: current.data → mergeTranscript current incoming = current) ∧
    (¬ current.data <+: incoming.data → ¬ incoming.data <+: current.data →
      mergeTranscript current incoming = current ++ incoming) := by
  refine ⟨fun h => by simp [mergeTranscript, h], fun h => ?_, fun h => ?_, fun h1 h2 => ?_⟩
  · rcases eq_or_ne incoming "" with he | he
    · subst he
      have : current.data = [] := List.prefix_nil.mp h
      have hc : current = "" := String.ext this
      simp [mergeTranscript, hc]
    · have hb : jsStartsWith incoming current = true := (jsStartsWith_iff _ _).mpr h
      simp [mergeTranscript, he, hb]
  · rcases eq_or_ne incoming "" with he | he
    · simp [mergeTranscript, he]
    · by_cases hb : jsStartsWith incoming current = true
      · have h2 : current.data <+: incoming.data := (jsStartsWith_iff _ _).mp hb
        have : current.data = incoming.data := h2.eq_of_length_le h.length_le
        have hc : current = incoming := String.ext this
        subst hc
        have hbb : jsStartsWith current current = true :=
          (jsStartsWith_iff _ _).mpr (List.prefix_refl _)
        simp [mergeTranscript, he, hbb]
      · have hb2 : jsStartsWith current incoming = true := (jsStartsWith_iff _ _).mpr h
        simp [mergeTranscript, he, hb, hb2]
  · have he : incoming ≠ "" := by
      intro h
      subst h
      exact h2 List.nil_prefix
    have hb1 : ¬ jsStartsWith incoming current = true := fun h => h1 ((jsStartsWith_iff _ _).mp h)
    have hb2 : ¬ jsStartsWith current incoming = true := fun h => h2 ((jsStartsWith_iff _ _).mp h)
    simp [mergeTranscript, he, hb1, hb2]

/-- Witness for C2 at concrete inputs: one per case. -/
theorem mergeTranscript_cases_witness :
    mergeTranscript "ab" "" = "ab" ∧ mergeTranscript "ab" "abc" = "abc" ∧
    mergeTranscript "abc" "ab" = "abc" ∧ mergeTranscript "ab" "cd" = "abcd" :=
  ⟨(mergeTranscript_cases "ab" "").1 rfl,
   (mergeTranscript_cases "ab" "abc").2.1 (by decide),
   (mergeTranscript_cases "abc" "ab").2.2.1 (by decide),
   (mergeTranscript_cases "ab" "cd").2.2.2 (by decide) (by decide)⟩

/-- C9: the current pending text is always a leading subsequence of the merge
result, and merging a text with itself returns it unchanged. -/
theorem mergeTranscript_grows (current incoming : String) :
    current.data <+: (mergeTranscript current incoming).data ∧
    mergeTranscript current current = current := by
  constructor
  · rcases eq_or_ne incoming "" with he | he
    · simp [mergeTranscript, he]
    · by_cases hb : jsStartsWith incoming current = true
      · simpa [mergeTranscript, he, hb] using (jsStartsWith_iff _ _).mp hb
      · by_cases hb2 : jsStartsWith current incoming = true
        · simp [mergeTranscript, he, hb, hb2]
        · simp [mergeTranscript, he, hb, hb2, List.prefix_append]
  · rcases eq_or_ne current "" with he | he
    · simp [mergeTranscript, he]
    · have hb : jsStartsWith current current = true :=
        (jsStartsWith_iff _ _).mpr (List.prefix_refl _)
      simp [mergeTranscript, he, hb]

/-- The `inputTranscription` branch of `onmessage`: merge the delta into
`currentInputText` and mirror it into the `activeUserText` UI state. -/
def handleInputTranscription (text : String) (s : SessionState) : SessionState :=
  let merged := mergeTranscript s.currentInputText text
  { s with currentInputText := merged, activeUserText := merged }

/-- The `outputTranscription` branch of `onmessage`: merge the delta into
`currentOutputText` and mirror it into the `activeModelText` UI state. -/
def handleOutputTranscription (text : String) (s : SessionState) : SessionState :=
  let merged := mergeTranscript s.currentOutputText text
  { s with currentOutputText := merged, activeModelText := merged }

/-- The `turnComplete` branch of `onmessage`, line by line: trim both pending
texts, suppress the commit when the trimmed pair equals the last committed
pair, otherwise record the pair and append the non-empty segments, and reset
the pending texts and per-turn UI state in every case.  `now` is the
`Date.now()` reading at commit time. -/
def handleTurnComplete (now : Nat) (s : SessionState) : SessionState :=
  let userFinal := s.currentInputText.trim
  let modelFinal := s.currentOutputText.trim
  let isDuplicateTurn :=
    userFinal == s.lastCommittedInput && modelFinal == s.lastCommittedOutput
  let s1 :=
    if !isDuplicateTurn then
      { s with lastCommittedInput := userFinal, lastCommittedOutput := modelFinal }
    else s
  let commits : List TranscriptionItem :=
    if !isDuplicateTurn then
      (if userFinal ≠ "" then [⟨Speaker.user, userFinal, now⟩] else []) ++
      (if modelFinal ≠ "" then [⟨Speaker.model, modelFinal, now⟩] else [])
    else []
  let s2 :=
    if 0 < commits.length then { s1 with transcription := s1.transcription ++ commits }
    else s1
  { s2 with
    currentInputText := ""
    currentOutputText := ""
    activeUserText := ""
    activeModelText := ""
    isModelSpeaking := false }

/-- One `part.inlineData` iteration of the `modelTurn.parts` loop of
`onmessage`: set the speaking indicator, clamp the schedule anchor to the
output clock, schedule the decoded buffer at the anchor, advance the anchor by
its duration and add it to the live set.  `currentTime` is the
`outCtx.currentTime` reading and `dur` the decoded buffer duration. -/
def handleAudioPart (currentTime dur : ℚ) (s : SessionState) : SessionState :=
  let anchor := max s.nextStartTime currentTime
  { s with
    isModelSpeaking := true
    nextStartTime := anchor + dur
    sources := s.sources ++ [⟨anchor, dur⟩] }

/-- The whole `modelTurn.parts` loop: each part carries the clock reading at
its handling time and its decoded duration. -/
def handleAudioParts (parts : List (ℚ × ℚ)) (s : SessionState) : SessionState :=
  parts.foldl (fun st p => handleAudioPart p.1 p.2 st) s

/-- The `interrupted` branch of `onmessage`: stop and clear every live source,
reset the schedule anchor to zero and discard the uncommitted agent text and
speaking indicator. -/
def handleInterrupted (s : SessionState) : SessionState :=
  { s with
    sources := []
    nextStartTime := 0
    currentOutputText := ""
    activeModelText := ""
    isModelSpeaking := false }

/-- One inbound `LiveServerMessage` as the `onmessage` callback sees it: which
of the optional `serverContent` fields are present.  Audio parts are listed as
(clock reading, decoded duration) pairs. -/
structure ServerMessage where
  inputTranscription : Option String
  outputTranscription : Option String
  turnComplete : Bool
  audioParts : List (ℚ × ℚ)
  interrupted : Bool
deriving DecidableEq

/-- The full `onmessage` callback: the branches in source order.  Note that the
source guards none of them by the session token — the callback reads and
writes no epoch state. -/
def onMessage (now : Nat) (msg : ServerMessage) (s : SessionState) : SessionState :=
  let s :=
    match msg.inputTranscription with
    | some t => handleInputTranscription t s
    | none => s
  let s :=
    match msg.outputTranscription with
    | some t => handleOutputTranscription t s
    | none => s
  let s := if msg.turnComplete then handleTurnComplete now s else s
  let s := handleAudioParts msg.audioParts s
  if msg.interrupted then handleInterrupted s else s

/-- `track.stop()` on every track of a media stream. -/
def stopTracks (st : MediaStream) : MediaStream :=
  { st with tracksStopped := true }

/-- The `stopSession` callback, line by line: bump the session token, close and
null the session if present, stop the stream tracks, stop and clear the live
sources, and clear the active flag. -/
def stopSession (s : SessionState) : SessionState :=
  let s := { s with sessionToken := s.sessionToken + 1 }
  let s := if s.session.isSome then { s with session := none } else s
  let s := { s with stream := s.stream.map stopTracks }
  { s with sources := [], isActive := false }

/-- The segments a non-duplicate turn appends: a user segment when the trimmed
user text is non-empty, then a model segment when the trimmed model text is
non-empty. -/
def commitsOf (u m : String) (now : Nat) : List TranscriptionItem :=
  (if u ≠ "" then [⟨Speaker.user, u, now⟩] else []) ++
  (if m ≠ "" then [⟨Speaker.model, m, now⟩] else [])

theorem handleTurnComplete_dup_eq (now : Nat) (s : SessionState)
    (hu : s.currentInputText.trim = s.lastCommittedInput)
    (hm : s.currentOutputText.trim = s.lastCommittedOutput) :
    handleTurnComplete now s =
      { s with
        currentInputText := ""
        currentOutputText := ""
        activeUserText := ""
        activeModelText := ""
        isModelSpeaking := false } := by
  simp [handleTurnComplete, hu, hm]

theorem handleTurnComplete_notdup_eq (now : Nat) (s : SessionState)
    (h : s.currentInputText.trim ≠ s.lastCommittedInput ∨
      s.currentOutputText.trim ≠ s.lastCommittedOutput) :
    handleTurnComplete now s =
      { s with
        lastCommittedInput := s.currentInputText.trim
        lastCommittedOutput := s.currentOutputText.trim
        transcription :=
          s.transcription ++ commitsOf s.currentInputText.trim s.currentOutputText.trim now
        currentInputText := ""
        currentOutputText := ""
        activeUserText := ""
        activeModelText := ""
        isModelSpeaking := false } := by
  have hdup : (s.currentInputText.trim == s.lastCommittedInput &&
      s.currentOutputText.trim == s.lastCommittedOutput) = false := by
    rcases h with h | h <;> simp [h]
  by_cases hu : s.currentInputText.trim = "" <;>
    by_cases hmm : s.currentOutputText.trim = "" <;>
      (simp only [handleTurnComplete, hdup] ; simp [commitsOf, hu, hmm])

theorem handleTurnComplete_lastCommitted (now : Nat) (s : SessionState) :
    (handleTurnComplete now s).lastCommittedInput = s.currentInputText.trim ∧
    (handleTurnComplete now s).lastCommittedOutput = s.currentOutputText.trim := by
  by_cases hu : s.currentInputText.trim = s.lastCommittedInput
  · by_cases hm : s.currentOutputText.trim = s.lastCommittedOutput
    · rw [handleTurnComplete_dup_eq now s hu hm]
      exact ⟨hu.symm, hm.symm⟩
    · rw [handleTurnComplete_notdup_eq now s (Or.inr hm)]
      exact ⟨rfl, rfl⟩
  · rw [handleTurnComplete_notdup_eq now s (Or.inl hu)]
    exact ⟨rfl, rfl⟩

theorem handleTurnComplete_refill_dup (t2 : Nat) (s1 : SessionState) (u2 a2 : String)
    (hu : u2.trim = s1.lastCommittedInput) (ha : a2.trim = s1.lastCommittedOutput) :
    (handleTurnComplete t2
      { s1 with currentInputText := u2, currentOutputText := a2 }).transcription
      = s1.transcription := by
  rw [handleTurnComplete_dup_eq t2 { s1 with currentInputText := u2, currentOutputText := a2 } hu ha]

theorem handleTurnComplete_refill_notdup (t2 : Nat) (s1 : SessionState) (u2 a2 : String)
    (h : u2.trim ≠ s1.lastCommittedInput ∨ a2.trim ≠ s1.lastCommittedOutput) :
    (handleTurnComplete t2
      { s1 with currentInputText := u2, currentOutputText := a2 }).transcription
      = s1.transcription ++ commitsOf u2.trim a2.trim t2 := by
  rw [handleTurnComplete_notdup_eq t2 { s1 with currentInputText := u2, currentOutputText := a2 } h]

/-- C3: a turn whose trimmed pending pair equals the last committed pair
appends nothing and leaves the last committed pair unchanged; consequently the
same pair committed twice in a row is appended only once. -/
theorem turnComplete_duplicate_suppression (t1 t2 : Nat) (s : SessionState) (u2 a2 : String)
    (hu2 : u2.trim = s.currentInputText.trim) (ha2 : a2.trim = s.currentOutputText.trim) :
    ((s.currentInputText.trim = s.lastCommittedInput ∧
      s.currentOutputText.trim = s.lastCommittedOutput) →
      (handleTurnComplete t1 s).transcription = s.transcription ∧
      (handleTurnComplete t1 s).lastCommittedInput = s.lastCommittedInput ∧
      (handleTurnComplete t1 s).lastCommittedOutput = s.lastCommittedOutput) ∧
    (handleTurnComplete t2
        { handleTurnComplete t1 s with
          currentInputText := u2, currentOutputText := a2 }).transcription
      = (handleTurnComplete t1 s).transcription := by
  constructor
  · rintro ⟨hu, hm⟩
    rw [handleTurnComplete_dup_eq t1 s hu hm]
    exact ⟨rfl, rfl, rfl⟩
  · exact handleTurnComplete_refill_dup t2 (handleTurnComplete t1 s) u2 a2
      (by rw [hu2]; exact (handleTurnComplete_lastCommitted t1 s).1.symm)
      (by rw [ha2]; exact (handleTurnComplete_lastCommitted t1 s).2.symm)

theorem trim_empty_str : "".trim = "" := by
  simp [String.trim, Substring.trim, String.toSubstring, Substring.takeWhileAux,
    Substring.takeRightWhileAux, String.endPos, String.utf8ByteSize, Substring.toString,
    String.extract]

theorem trim_a : "a".trim = "a" := by
  simp [String.trim, Substring.trim, String.toSubstring, Substring.takeWhileAux,
    Substring.takeRightWhileAux, String.endPos, String.utf8ByteSize, Substring.toString,
    String.extract, String.get, String.prev, String.next, String.utf8GetAux,
    String.utf8PrevAux, Char.isWhitespace, Char.utf8Size, String.extract.go₁,
    String.extract.go₂]
  decide

theorem trim_b : "b".trim = "b" := by
  simp [String.trim, Substring.trim, String.toSubstring, Substring.takeWhileAux,
    Substring.takeRightWhileAux, String.endPos, String.utf8ByteSize, Substring.toString,
    String.extract, String.get, String.prev, String.next, String.utf8GetAux,
    String.utf8PrevAux, Char.isWhitespace, Char.utf8Size, String.extract.go₁,
    String.extract.go₂]
  decide

/-- The concrete state used to witness C3: the pair ("a", "b") is pending and
is also the last committed pair. -/
def dupState : SessionState :=
  { initialState with
    currentInputText := "a"
    currentOutputText := "b"
    lastCommittedInput := "a"
    lastCommittedOutput := "b" }

/-- Witness for C3: committing ("a", "b") when it is already the last
committed pair appends nothing, and recommitting it right away appends
nothing either. -/
theorem turnComplete_duplicate_suppression_witness :
    (handleTurnComplete 0 dupState).transcription = dupState.transcription ∧
    (handleTurnComplete 1
        { handleTurnComplete 0 dupState with
          currentInputText := "a", currentOutputText := "b" }).transcription
      = (handleTurnComplete 0 dupState).transcription := by
  have h := turnComplete_duplicate_suppression 0 1 dupState "a" "b" rfl rfl
  exact ⟨(h.1 ⟨trim_a, trim_b⟩).1, h.2⟩

/-- C10: a turn whose two pending texts both trim to empty appends nothing and
overwrites the last committed pair with ("", "") — so a following turn that
repeats the previously committed non-empty pair is not suppressed and appends
its segments again. -/
theorem turnComplete_empty_turn (t1 t2 : Nat) (s : SessionState)
    (hu : s.currentInputText.trim = "") (hm : s.currentOutputText.trim = "") :
    (handleTurnComplete t1 s).transcription = s.transcription ∧
    (handleTurnComplete t1 s).lastCommittedInput = "" ∧
    (handleTurnComplete t1 s).lastCommittedOutput = "" ∧
    (∀ u2 a2 : String,
      u2.trim = s.lastCommittedInput → a2.trim = s.lastCommittedOutput →
      (s.lastCommittedInput ≠ "" ∨ s.lastCommittedOutput ≠ "") →
      (handleTurnComplete t2
          { handleTurnComplete t1 s with
            currentInputText := u2, currentOutputText := a2 }).transcription
        = (handleTurnComplete t1 s).transcription ++ commitsOf u2.trim a2.trim t2) := by
  have hL := handleTurnComplete_lastCommitted t1 s
  have hL1 : (handleTurnComplete t1 s).lastCommittedInput = "" := by rw [hL.1, hu]
  have hL2 : (handleTurnComplete t1 s).lastCommittedOutput = "" := by rw [hL.2, hm]
  have htr : (handleTurnComplete t1 s).transcription = s.transcription := by
    by_cases hdu : s.currentInputText.trim = s.lastCommittedInput
    · by_cases hdm : s.currentOutputText.trim = s.lastCommittedOutput
      · rw [handleTurnComplete_dup_eq t1 s hdu hdm]
      · rw [handleTurnComplete_notdup_eq t1 s (Or.inr hdm)]
        simp [commitsOf, hu, hm]
    · rw [handleTurnComplete_notdup_eq t1 s (Or.inl hdu)]
      simp [commitsOf, hu, hm]
  refine ⟨htr, hL1, hL2, ?_⟩
  intro u2 a2 hu2 ha2 hne
  apply handleTurnComplete_refill_notdup
  rcases hne with hne | hne
  · left
    rw [hL1, hu2]
    exact hne
  · right
    rw [hL2, ha2]
    exact hne

/-- The concrete state used to witness C10: ("a", "b") was just committed and
both pending texts are empty. -/
def emptyTurnState : SessionState :=
  { initialState with
    lastCommittedInput := "a"
    lastCommittedOutput := "b" }

/-- Witness for C10: the empty turn appends nothing and resets the last
committed pair, and repeating ("a", "b") right after appends both segments
again. -/
theorem turnComplete_empty_turn_witness :
    (handleTurnComplete 5 emptyTurnState).transcription = emptyTurnState.transcription ∧
    (handleTurnComplete 5 emptyTurnState).lastCommittedInput = "" ∧
    (handleTurnComplete 6
        { handleTurnComplete 5 emptyTurnState with
          currentInputText := "a", currentOutputText := "b" }).transcription
      = (handleTurnComplete 5 emptyTurnState).transcription
        ++ commitsOf "a".trim "b".trim 6 := by
  have h := turnComplete_empty_turn 5 6 emptyTurnState trim_empty_str trim_empty_str
  exact ⟨h.1, h.2.1, h.2.2.2 "a" "b" trim_a trim_b (Or.inl (by decide))⟩

/-- The buffers a run of audio parts schedules when the schedule anchor starts
at `next`: each part starts at `max next t` and advances the anchor by its
duration, exactly as `handleAudioPart` does. -/
def scheduledOf (next : ℚ) : List (ℚ × ℚ) → List ScheduledBuffer
  | [] => []
  | (t, d) :: rest => ⟨max next t, d⟩ :: scheduledOf (max next t + d) rest

theorem handleAudioParts_sources (parts : List (ℚ × ℚ)) (s : SessionState) :
    (handleAudioParts parts s).sources = s.sources ++ scheduledOf s.nextStartTime parts := by
  induction parts generalizing s with
  | nil => simp [handleAudioParts, scheduledOf]
  | cons p rest ih =>
    obtain ⟨t, d⟩ := p
    have hstep : handleAudioParts ((t, d) :: rest) s
        = handleAudioParts rest (handleAudioPart t d s) := rfl
    rw [hstep, ih]
    simp [handleAudioPart, scheduledOf]

/-- playback keeps ahead of arrivals: every chunk is enqueued while the output
clock still reads at most the reserved schedule anchor. -/
def arrivalsKeptAhead : ℚ → List (ℚ × ℚ) → Prop
  | _, [] => True
  | next, (t, d) :: rest => t ≤ next ∧ arrivalsKeptAhead (max next t + d) rest

/-- The back-to-back schedule the spec describes: s1 = start, s_{k+1} = s_k + d_k. -/
def denseFrom : ℚ → List (ℚ × ℚ) → List ScheduledBuffer
  | _, [] => []
  | start, (_, d) :: rest => ⟨start, d⟩ :: denseFrom (start + d) rest

theorem scheduledOf_keptAhead (next : ℚ) (ps : List (ℚ × ℚ))
    (h : arrivalsKeptAhead next ps) : scheduledOf next ps = denseFrom next ps := by
  induction ps generalizing next with
  | nil => rfl
  | cons p rest ih =>
    obtain ⟨t, d⟩ := p
    obtain ⟨h1, h2⟩ := h
    have hm : max next t = next := max_eq_left h1
    rw [hm] at h2
    simp [scheduledOf, denseFrom, hm, ih _ h2]

theorem denseFrom_start_le (start : ℚ) (ps : List (ℚ × ℚ))
    (hd : ∀ p ∈ ps, 0 ≤ p.2) : ∀ b ∈ denseFrom start ps, start ≤ b.start := by
  induction ps generalizing start with
  | nil => intro b hb; simp [denseFrom] at hb
  | cons p rest ih =>
    obtain ⟨t, d⟩ := p
    intro b hb
    rcases List.mem_cons.mp hb with hb | hb
    · subst hb; exact le_refl _
    · have h0 : (0 : ℚ) ≤ d := hd (t, d) (List.mem_cons_self _ _)
      have := ih (start + d) (fun p hp => hd p (List.mem_cons_of_mem _ hp)) b hb
      linarith

theorem denseFrom_pairwise (start : ℚ) (ps : List (ℚ × ℚ))
    (hd : ∀ p ∈ ps, 0 ≤ p.2) :
    (denseFrom start ps).Pairwise (fun a b => a.start + a.duration ≤ b.start) := by
  induction ps generalizing start with
  | nil => exact List.Pairwise.nil
  | cons p rest ih =>
    obtain ⟨t, d⟩ := p
    refine List.Pairwise.cons ?_ (ih (start + d) (fun p hp => hd p (List.mem_cons_of_mem _ hp)))
    intro b hb
    exact denseFrom_start_le (start + d) rest (fun p hp => hd p (List.mem_cons_of_mem _ hp)) b hb

/-- C4: with the anchor fresh at zero and playback keeping ahead of arrivals,
N enqueued chunks are scheduled at s1 = max 0 t0, s_{k+1} = s_k + d_k, with no
two scheduled buffers overlapping. -/
theorem playback_contiguity (s : SessionState) (t0 d0 : ℚ) (rest : List (ℚ × ℚ))
    (h0 : s.nextStartTime = 0) (hs : s.sources = [])
    (hahead : arrivalsKeptAhead (max 0 t0 + d0) rest)
    (hd0 : 0 ≤ d0) (hd : ∀ p ∈ rest, 0 ≤ p.2) :
    (handleAudioParts ((t0, d0) :: rest) s).sources
      = denseFrom (max 0 t0) ((t0, d0) :: rest) ∧
    ((handleAudioParts ((t0, d0) :: rest) s).sources).Pairwise
      (fun a b => a.start + a.duration ≤ b.start) := by
  have hall : ∀ p ∈ (t0, d0) :: rest, (0 : ℚ) ≤ p.2 := by
    intro p hp
    rcases List.mem_cons.mp hp with hp | hp
    · subst hp; exact hd0
    · exact hd p hp
  have h1 : (handleAudioParts ((t0, d0) :: rest) s).sources
      = denseFrom (max 0 t0) ((t0, d0) :: rest) := by
    rw [handleAudioParts_sources, hs, h0]
    show scheduledOf 0 ((t0, d0) :: rest) = _
    have : scheduledOf 0 ((t0, d0) :: rest)
        = ⟨max 0 t0, d0⟩ :: scheduledOf (max 0 t0 + d0) rest := rfl
    rw [this, scheduledOf_keptAhead _ _ hahead]
    rfl
  refine ⟨h1, ?_⟩
  rw [h1]
  exact denseFrom_pairwise (max 0 t0) ((t0, d0) :: rest) hall

/-- Witness for C4, the scenario of the spec: chunks of duration 0.5 and 0.3
arriving with the clock at 2.0 are scheduled at offsets 2.0 and 2.5. -/
theorem playback_contiguity_witness :
    (handleAudioParts ((2, 1/2) :: [(2, 3/10)]) initialState).sources
      = denseFrom (max 0 2) ((2, 1/2) :: [(2, 3/10)]) ∧
    ((handleAudioParts ((2, 1/2) :: [(2, 3/10)]) initialState).sources).Pairwise
      (fun a b => a.start + a.duration ≤ b.start) :=
  playback_contiguity initialState 2 (1/2) [(2, 3/10)] rfl rfl
    ⟨by norm_num, trivial⟩ (by norm_num) (by norm_num)

/-- C6: the interruption handler empties the live set and zeroes the anchor,
and the next enqueue starts exactly at the then-current clock time. -/
theorem flush_resets_schedule (s : SessionState) (t d : ℚ) (ht : 0 ≤ t) :
    (handleInterrupted s).sources = [] ∧
    (handleInterrupted s).nextStartTime = 0 ∧
    (handleAudioPart t d (handleInterrupted s)).sources = [⟨t, d⟩] ∧
    (handleAudioPart t d (handleInterrupted s)).nextStartTime = t + d := by
  refine ⟨rfl, rfl, ?_, ?_⟩
  · simp [handleAudioPart, handleInterrupted, max_eq_right ht]
  · simp [handleAudioPart, handleInterrupted, max_eq_right ht]

/-- A state mid-playback: a sounding buffer and a far-advanced anchor, used to
witness C6. -/
def preFlushState : SessionState :=
  { initialState with
    sources := [⟨0, 1⟩, ⟨1, 1⟩]
    nextStartTime := 100
    isModelSpeaking := true
    currentOutputText := "b"
    activeModelText := "b" }

/-- Witness for C6: flushing `preFlushState` and enqueuing with the clock at 3
schedules at 3, not at the pre-flush anchor 100. -/
theorem flush_resets_schedule_witness :
    (handleInterrupted preFlushState).sources = [] ∧
    (handleInterrupted preFlushState).nextStartTime = 0 ∧
    (handleAudioPart 3 2 (handleInterrupted preFlushState)).sources = [⟨3, 2⟩] ∧
    (handleAudioPart 3 2 (handleInterrupted preFlushState)).nextStartTime = 3 + 2 :=
  flush_resets_schedule preFlushState 3 2 (by norm_num)

theorem stopSession_fields (s : SessionState) :
    (stopSession s).session = none ∧
    (stopSession s).stream = s.stream.map stopTracks ∧
    (stopSession s).sources = [] ∧
    (stopSession s).isActive = false := by
  cases h : s.session with
  | none => simp [stopSession, h]
  | some v => simp [stopSession, h]

/-- C8: a second `stopSession` leaves the session handle, the media stream,
the live playback set and the active flag exactly as the first one left them. -/
theorem stop_idempotent (s : SessionState) :
    (stopSession (stopSession s)).session = (stopSession s).session ∧
    (stopSession (stopSession s)).stream = (stopSession s).stream ∧
    (stopSession (stopSession s)).sources = (stopSession s).sources ∧
    (stopSession (stopSession s)).isActive = (stopSession s).isActive := by
  obtain ⟨h1, h2, h3, h4⟩ := stopSession_fields s
  obtain ⟨g1, g2, g3, g4⟩ := stopSession_fields (stopSession s)
  refine ⟨by rw [g1, h1], ?_, by rw [g3, h3], by rw [g4, h4]⟩
  rw [g2, h2]
  cases s.stream with
  | none => rfl
  | some st => rfl

/-- Truncation toward zero of a rational: the integer-conversion step of the
JavaScript ToInt16 coercion. -/
def ratTrunc (q : ℚ) : ℤ :=
  if 0 ≤ q then ⌊q⌋ else ⌈q⌉

/-- JavaScript ToInt16: reduce modulo 2^16 and map into [-32768, 32767].
This is what assigning a number into an `Int16Array` slot performs after
truncation. -/
def toInt16 (n : ℤ) : ℤ :=
  if 32768 ≤ n % 65536 then n % 65536 - 65536 else n % 65536

/-- One sample of the capture pipeline: `int16[i] = inputData[i] * 32768` in
`scriptProcessor.onaudioprocess`.  The float sample is embedded as a rational;
scaling a float32 value in [-1, 1] by 2^15 is exact, so no rounding is lost in
the embedding. -/
def convertSample (x : ℚ) : ℤ :=
  toInt16 (ratTrunc (x * 32768))

theorem toInt16_eq_self (n : ℤ) (h1 : -32768 ≤ n) (h2 : n ≤ 32767) :
    toInt16 n = n := by
  unfold toInt16
  split <;> omega

theorem ratTrunc_bounds (q : ℚ) (h1 : (-32768 : ℚ) ≤ q) (h2 : q < 32768) :
    -32768 ≤ ratTrunc q ∧ ratTrunc q ≤ 32767 := by
  unfold ratTrunc
  split
  · rename_i h0
    constructor
    · have : (0 : ℤ) ≤ ⌊q⌋ := Int.floor_nonneg.mpr h0
      omega
    · have : ⌊q⌋ < 32768 := by
        rw [Int.floor_lt]
        exact_mod_cast h2
      omega
  · rename_i h0
    push_neg at h0
    constructor
    · have : (-32769 : ℤ) < ⌈q⌉ := by
        rw [Int.lt_ceil]
        push_cast
        linarith
      omega
    · have : ⌈q⌉ ≤ 0 := by
        rw [Int.ceil_le]
        push_cast
        linarith
      omega

/-- C7 amended: for samples x in [-1, 1) the pipeline emits the truncation
toward zero of x·32768, which is representable in [-32768, 32767]; the claim
fails at x = 1, where the product 32768 wraps (see the counterexample). -/
theorem capture_sample_conversion (x : ℚ) (h1 : -1 ≤ x) (h2 : x < 1) :
    convertSample x = ratTrunc (x * 32768) ∧
    -32768 ≤ convertSample x ∧ convertSample x ≤ 32767 := by
  have hq1 : (-32768 : ℚ) ≤ x * 32768 := by nlinarith
  have hq2 : x * 32768 < 32768 := by nlinarith
  obtain ⟨hb1, hb2⟩ := ratTrunc_bounds (x * 32768) hq1 hq2
  have he : convertSample x = ratTrunc (x * 32768) :=
    toInt16_eq_self _ hb1 hb2
  exact ⟨he, he ▸ hb1, he ▸ hb2⟩

/-- Witness for the amended C7 at the full-scale negative sample x = -1. -/
theorem capture_sample_conversion_witness :
    convertSample (-1) = ratTrunc ((-1) * 32768) ∧
    -32768 ≤ convertSample (-1) ∧ convertSample (-1) ≤ 32767 :=
  capture_sample_conversion (-1) (by norm_num) (by norm_num)

/-- Counterexample to C7 as stated: at x = 1 the emitted value is -32768, not
1·32768 = 32768 (which is outside the signed 16-bit range): the conversion
wraps instead of clamping. -/
theorem capture_sample_overflow :
    convertSample 1 = -32768 ∧ convertSample 1 ≠ 32768 := by
  have h : ratTrunc ((1 : ℚ) * 32768) = 32768 := by
    norm_num [ratTrunc]
  have h2 : convertSample 1 = toInt16 32768 := by
    rw [convertSample, h]
  rw [h2]
  constructor
  · decide
  · decide

theorem handleInputTranscription_token (t : String) (s : SessionState) (k : Nat) :
    handleInputTranscription t { s with sessionToken := k }
      = { handleInputTranscription t s with sessionToken := k } := rfl

theorem handleOutputTranscription_token (t : String) (s : SessionState) (k : Nat) :
    handleOutputTranscription t { s with sessionToken := k }
      = { handleOutputTranscription t s with sessionToken := k } := rfl

theorem handleTurnComplete_token (now : Nat) (s : SessionState) (k : Nat) :
    handleTurnComplete now { s with sessionToken := k }
      = { handleTurnComplete now s with sessionToken := k } := by
  by_cases hu : s.currentInputText.trim = s.lastCommittedInput
  · by_cases hm : s.currentOutputText.trim = s.lastCommittedOutput
    · rw [handleTurnComplete_dup_eq now s hu hm,
        handleTurnComplete_dup_eq now { s with sessionToken := k } hu hm]
    · rw [handleTurnComplete_notdup_eq now s (Or.inr hm),
        handleTurnComplete_notdup_eq now { s with sessionToken := k } (Or.inr hm)]
  · rw [handleTurnComplete_notdup_eq now s (Or.inl hu),
      handleTurnComplete_notdup_eq now { s with sessionToken := k } (Or.inl hu)]

theorem handleAudioPart_token (t d : ℚ) (s : SessionState) (k : Nat) :
    handleAudioPart t d { s with sessionToken := k }
      = { handleAudioPart t d s with sessionToken := k } := rfl

theorem handleAudioParts_token (parts : List (ℚ × ℚ)) (s : SessionState) (k : Nat) :
    handleAudioParts parts { s with sessionToken := k }
      = { handleAudioParts parts s with sessionToken := k } := by
  induction parts generalizing s with
  | nil => rfl
  | cons p rest ih =>
    obtain ⟨t, d⟩ := p
    show handleAudioParts rest (handleAudioPart t d { s with sessionToken := k }) = _
    rw [handleAudioPart_token, ih]
    rfl

theorem handleInterrupted_token (s : SessionState) (k : Nat) :
    handleInterrupted { s with sessionToken := k }
      = { handleInterrupted s with sessionToken := k } := rfl

theorem handleInputTranscription_sessionToken (t : String) (s : SessionState) :
    (handleInputTranscription t s).sessionToken = s.sessionToken := rfl

theorem handleOutputTranscription_sessionToken (t : String) (s : SessionState) :
    (handleOutputTranscription t s).sessionToken = s.sessionToken := rfl

theorem handleInterrupted_sessionToken (s : SessionState) :
    (handleInterrupted s).sessionToken = s.sessionToken := rfl

theorem handleTurnComplete_sessionToken (now : Nat) (s : SessionState) :
    (handleTurnComplete now s).sessionToken = s.sessionToken := by
  by_cases hu : s.currentInputText.trim = s.lastCommittedInput
  · by_cases hm : s.currentOutputText.trim = s.lastCommittedOutput
    · rw [handleTurnComplete_dup_eq now s hu hm]
    · rw [handleTurnComplete_notdup_eq now s (Or.inr hm)]
  · rw [handleTurnComplete_notdup_eq now s (Or.inl hu)]

theorem handleAudioParts_sessionToken (parts : List (ℚ × ℚ)) (s : SessionState) :
    (handleAudioParts parts s).sessionToken = s.sessionToken := by
  induction parts generalizing s with
  | nil => rfl
  | cons p rest ih =>
    obtain ⟨t, d⟩ := p
    exact (ih (handleAudioPart t d s)).trans rfl

/-- C1 amended: the `onmessage` callback carries no epoch guard — its result
is independent of the session token (delivering it at an advanced epoch gives
exactly the state it would give at the capture epoch, token field aside), and
it never touches the token itself.  Stale events are therefore applied, not
dropped; see the counterexample for an observable change at an advanced
epoch. -/
theorem onMessage_ignores_epoch (now : Nat) (msg : ServerMessage) (s : SessionState) (k : Nat) :
    onMessage now msg { s with sessionToken := k }
      = { onMessage now msg s with sessionToken := k } ∧
    (onMessage now msg s).sessionToken = s.sessionToken := by
  obtain ⟨it, ot, tc, parts, ir⟩ := msg
  constructor
  · cases it <;> cases ot <;> cases tc <;> cases ir <;>
      simp only [onMessage, handleInputTranscription_token, handleOutputTranscription_token,
        handleTurnComplete_token, handleAudioParts_token, handleInterrupted_token,
        if_true, if_false, Bool.false_eq_true]
  · cases it <;> cases ot <;> cases tc <;> cases ir <;>
      simp only [onMessage, handleTurnComplete_sessionToken, handleAudioParts_sessionToken,
        handleInputTranscription_sessionToken, handleOutputTranscription_sessionToken,
        handleInterrupted_sessionToken, if_true, if_false, Bool.false_eq_true]

/-- A state whose epoch has already advanced to 1 while an event captured at
epoch 0 is still in flight. -/
def staleState : SessionState :=
  { initialState with sessionToken := 1 }

/-- The in-flight event: a partial user transcript. -/
def staleMsg : ServerMessage :=
  { inputTranscription := some "Hello"
    outputTranscription := none
    turnComplete := false
    audioParts := []
    interrupted := false }

/-- Counterexample to C1 as stated: the handler has no access to a captured
epoch at all, so the stale transcript event applied at current epoch 1 (after
the capture epoch 0) changes the observable caption state. -/
theorem onMessage_stale_changes_state :
    staleState.sessionToken = 1 ∧
    staleState.activeUserText = "" ∧
    (onMessage 0 staleMsg staleState).activeUserText = "Hello" ∧
    onMessage 0 staleMsg staleState ≠ staleState := by
  refine ⟨rfl, rfl, ?_, ?_⟩ <;> decide

/-- The prefix of `startSession` through `await initializeAudio()` and the
token check that follows it, as one event-loop trace.  `token` is captured and
stored; `initializeAudio` constructs both audio contexts synchronously
(identified by `cin` and `cout`), then awaits `getUserMedia` — `interfere` is
whatever other callbacks the event loop runs during that await — and stores
the acquired stream (identified by `streamId`).  On `token !==
sessionTokenRef.current` the function returns (flag true); otherwise it
proceeds to `setIsActive(true)` and the connection opening (not modeled
beyond the flag). -/
def startThroughAcquisition (interfere : SessionState → SessionState)
    (cin cout streamId : Nat) (s0 : SessionState) : SessionState × Bool :=
  let token := s0.sessionToken + 1
  let s1 := { s0 with sessionToken := token }
  let s2 := { s1 with audioContextIn := some cin, audioContextOut := some cout }
  let s3 := interfere s2
  let s4 := { s3 with stream := some ⟨streamId, false⟩ }
  if token ≠ s4.sessionToken then (s4, true)
  else ({ s4 with isActive := true }, false)

/-- C5 amended: when the epoch advanced during acquisition, `startSession`
aborts — it does not set the active flag or the session handle and never
opens the connection — but the state it leaves is the interference state plus
the freshly acquired audio contexts and media stream: those fields already
differ from their values before `start()` and the new stream is not torn
down. -/
theorem start_abort_applies_no_further_state (interfere : SessionState → SessionState)
    (cin cout streamId : Nat) (s0 : SessionState)
    (h : (interfere { s0 with
        sessionToken := s0.sessionToken + 1
        audioContextIn := some cin
        audioContextOut := some cout }).sessionToken ≠ s0.sessionToken + 1) :
    startThroughAcquisition interfere cin cout streamId s0
      = ({ interfere { s0 with
            sessionToken := s0.sessionToken + 1
            audioContextIn := some cin
            audioContextOut := some cout } with
          stream := some ⟨streamId, false⟩ }, true) := by
  simp only [startThroughAcquisition]
  rw [if_pos]
  exact fun e => h (by rw [← e])

/-- Witness for the amended C5: a `stopSession` racing during `getUserMedia`
advances the epoch, the start aborts, and the aborted state is exactly the
stopped state plus the fresh (never stopped) stream and contexts. -/
theorem start_abort_applies_no_further_state_witness :
    startThroughAcquisition stopSession 1 2 7 initialState
      = ({ stopSession { initialState with
            sessionToken := 1
            audioContextIn := some 1
            audioContextOut := some 2 } with
          stream := some ⟨7, false⟩ }, true) :=
  start_abort_applies_no_further_state stopSession 1 2 7 initialState (by decide)

/-- Counterexample to C5 as stated: with a `stopSession` racing during
acquisition, the start aborts, yet the media stream and input audio context
observable after the abort differ from their values before `start()` (and the
fresh stream's tracks were never stopped). -/
theorem start_abort_leaks_stream :
    (startThroughAcquisition stopSession 1 2 7 initialState).2 = true ∧
    (startThroughAcquisition stopSession 1 2 7 initialState).1.stream
      ≠ initialState.stream ∧
    (startThroughAcquisition stopSession 1 2 7 initialState).1.stream
      = some ⟨7, false⟩ ∧
    (startThroughAcquisition stopSession 1 2 7 initialState).1.audioContextIn
      ≠ initialState.audioContextIn := by
  refine ⟨?_, ?_, ?_, ?_⟩ <;> decide

end ChatAI
